import Mathlib

/-!
Shallow embedding of `src/src/Kaleidoscope/Heatmap.cpp` (Kaleidoscope-Heatmap).

Machine integers are modelled as `Nat` with explicit `% 2 ^ w` exactly where the
source can overflow: the per-key counters and `highest_` are `uint16_t` (the only
increment site reduces `% 65536`), and `next_heatmap_comp_time_` is `uint32_t`
(the only assignment site reduces `% 4294967296`).  The C++ `float` arithmetic of
`computeColor` is modelled over `ℚ`; every theorem stated about a particular
floating-point result below is restricted to cases in which the rational value
and the `float` value provably coincide (the interpolated channel difference is
zero, or the value is a small integer that `float` represents exactly), as noted
at each theorem.
-/

namespace Heatmap

/-- RGB color triple.  As in the source: in the `cRGB` struct the field order is
blue, green, red ("It should be called cBGR…"), and each channel is a `uint8_t`
(a `Nat` here; all values produced stay below 256). -/
structure cRGB where
  b : Nat
  g : Nat
  r : Nat
  deriving DecidableEq, Repr, Inhabited

/-- The default palette, from
`static const cRGB heat_colors_default_[] = {{0,0,0},{25,255,25},{25,255,255},{25,25,255}}`
(black, green, yellow, red; each literal is in b,g,r field order). -/
def heat_colors_default_ : List cRGB :=
  [⟨0, 0, 0⟩, ⟨25, 255, 25⟩, ⟨25, 255, 255⟩, ⟨25, 25, 255⟩]

/-- `uint8_t Heatmap::heat_colors_length = 4;` -/
def heat_colors_length : Nat := 4

/-- `uint16_t Heatmap::update_delay = 1000;` -/
def update_delay : Nat := 1000

/-- `static_cast<uint8_t>` applied to a nonnegative `float`: drops the decimal
part.  All channel values fed to it lie between two palette channels, hence in
`[0, 255]`, so no `% 256` reduction arises. -/
def trunc8 (q : ℚ) : Nat := (⌊q⌋).toNat

/-- One interpolated channel, as in the source:
`static_cast<uint8_t>((c2 - c1) * fb + c1)` where the byte subtraction is
promoted to `int` (modelled as `ℤ`) before the `float` multiplication. -/
def chan (c1 c2 : Nat) (fb : ℚ) : Nat :=
  trunc8 ((((c2 : ℤ) - (c1 : ℤ) : ℤ) : ℚ) * fb + (c1 : ℚ))

/-- The branch structure of `computeColor`: the pair of palette indices
`(idx1, idx2)` and the fractional blend `fb`.  `v <= 0` uses index 0 with
`fb = 0`; `v >= 1` uses the last index with `fb = 0`; otherwise
`idx1 = static_cast<int>(v * (hcl - 1))` (truncation; `v > 0` so this is the
floor), `idx2 = idx1 + 1`, and `fb = val - static_cast<float>(idx1)`. -/
def computeIdx (hcl : Nat) (v : ℚ) : Nat × Nat × ℚ :=
  if v ≤ 0 then
    (0, 0, 0)
  else if 1 ≤ v then
    (hcl - 1, hcl - 1, 0)
  else
    ((⌊v * ((hcl - 1 : Nat) : ℚ)⌋).toNat,
     (⌊v * ((hcl - 1 : Nat) : ℚ)⌋).toNat + 1,
     v * ((hcl - 1 : Nat) : ℚ) - (((⌊v * ((hcl - 1 : Nat) : ℚ)⌋).toNat : Nat) : ℚ))

/-- The three per-channel interpolations of `computeColor`, returning
`{b, g, r}` as the source does. -/
def blend (c1 c2 : cRGB) (fb : ℚ) : cRGB :=
  ⟨chan c1.b c2.b fb, chan c1.g c2.g fb, chan c1.r c2.r fb⟩

/-- `cRGB Heatmap::computeColor(float v)`.  The palette and its length travel
together here (`heat_colors_length` is configured to the palette's length). -/
def computeColor (heat_colors : List cRGB) (v : ℚ) : cRGB :=
  blend
    (heat_colors.getD (computeIdx heat_colors.length v).1 ⟨0, 0, 0⟩)
    (heat_colors.getD (computeIdx heat_colors.length v).2.1 ⟨0, 0, 0⟩)
    (computeIdx heat_colors.length v).2.2

/-- The mutable state of the plugin: `heatmap_[ROWS][COLS]`, `highest_`, and
`next_heatmap_comp_time_`.  `R`/`C` are the build-time `ROWS`/`COLS`. -/
structure State (R C : Nat) where
  heatmap : Fin R → Fin C → Nat
  highest : Nat
  next_heatmap_comp_time : Nat

/-- Startup state: `heatmap_` zero-initialized, `highest_ = 1`,
`next_heatmap_comp_time_ = 0`. -/
def initialState (R C : Nat) : State R C :=
  ⟨fun _ _ => 0, 1, 0⟩

/-- `void Heatmap::shiftStats(void)`: every cell and `highest_` right-shifted
by 1. -/
def shiftStats {R C : Nat} (s : State R C) : State R C :=
  { s with
    heatmap := fun r c => s.heatmap r c >>> 1
    highest := s.highest >>> 1 }

/-- `EventHandlerResult` of the host framework; the plugin only ever produces
`OK`. -/
inductive EventHandlerResult where
  | OK
  | EVENT_CONSUMED
  | ABORT
  deriving DecidableEq, Repr

/-- The grid after `heatmap_[row][col]++` (a `uint16_t` increment, hence the
`% 65536`). -/
def bump {R C : Nat} (s : State R C) (row : Fin R) (col : Fin C) :
    Fin R → Fin C → Nat :=
  fun x y =>
    if x = row ∧ y = col then (s.heatmap x y + 1) % 65536 else s.heatmap x y

/-- The body of `onKeyswitchEvent` past the two early-return filters:
`heatmap_[row][col]++` (uint16), then if `highest_ < heatmap_[row][col]` update
`highest_`, and if the new `highest_` equals `INT16_MAX` (32767) call
`shiftStats`. -/
def keyPress {R C : Nat} (s : State R C) (row : Fin R) (col : Fin C) : State R C :=
  if s.highest < bump s row col row col then
    if bump s row col row col = 32767 then
      shiftStats { s with heatmap := bump s row col, highest := bump s row col row col }
    else
      { s with heatmap := bump s row col, highest := bump s row col row col }
  else
    { s with heatmap := bump s row col }

/-- `EventHandlerResult Heatmap::onKeyswitchEvent(...)`.  The two tests on
`key_state` are calls into the host framework (`key_state & INJECTED` and
`keyToggledOn(key_state)`); their Boolean outcomes are taken as inputs
`injected` and `toggled_on`.  If `injected`, or if not `toggled_on`, the state
is untouched; `EventHandlerResult::OK` is returned in every case. -/
def onKeyswitchEvent {R C : Nat} (s : State R C) (row : Fin R) (col : Fin C)
    (injected toggled_on : Bool) : EventHandlerResult × State R C :=
  if injected then
    (EventHandlerResult.OK, s)
  else if toggled_on = false then
    (EventHandlerResult.OK, s)
  else
    (EventHandlerResult.OK, keyPress s row col)

/-- `EventHandlerResult Heatmap::beforeEachCycle()`: call `shiftStats` when
`highest_ > (static_cast<uint16_t>(heat_colors_length) << 9)`.  The tick
consults no clock and no render-scheduling state (the definition takes no time
argument). -/
def beforeEachCycle {R C : Nat} (hcl : Nat) (s : State R C) :
    EventHandlerResult × State R C :=
  if hcl <<< 9 < s.highest then
    (EventHandlerResult.OK, shiftStats s)
  else
    (EventHandlerResult.OK, s)

/-- `void Heatmap::update(void)`, with `millis()` passed in as `now`.  Returns
the new state together with the list of `::LEDControl.setCrgbAt(r, c, color)`
calls made, in the order the nested `for` loops make them (row-major).  The
early return fires when `next_heatmap_comp_time_ && (millis() < next_...)`;
otherwise `next_... = millis() + update_delay` (uint32) and one color per cell
is written, `computeColor(heatmap_[r][c] / highest_)` (the division modelled
over `ℚ`). -/
def update {R C : Nat} (heat_colors : List cRGB) (delay : Nat) (s : State R C)
    (now : Nat) : State R C × List (Fin R × Fin C × cRGB) :=
  if s.next_heatmap_comp_time ≠ 0 ∧ now < s.next_heatmap_comp_time then
    (s, [])
  else
    ({ s with next_heatmap_comp_time := (now + delay) % 4294967296 },
     (List.finRange R).flatMap fun r =>
       (List.finRange C).map fun c =>
         (r, c, computeColor heat_colors
           ((s.heatmap r c : ℚ) / (s.highest : ℚ))))

/-- States reachable from `initialState` by any sequence of key events, cycle
ticks, and render ticks, with palette length `hcl`, render interval `delay`,
and palette `colors` fixed ambient configuration. -/
inductive Reachable (R C hcl delay : Nat) (colors : List cRGB) : State R C → Prop where
  | init : Reachable R C hcl delay colors (initialState R C)
  | key (s : State R C) (row : Fin R) (col : Fin C) (injected toggled_on : Bool) :
      Reachable R C hcl delay colors s →
      Reachable R C hcl delay colors (onKeyswitchEvent s row col injected toggled_on).2
  | cycle (s : State R C) :
      Reachable R C hcl delay colors s →
      Reachable R C hcl delay colors (beforeEachCycle hcl s).2
  | render (s : State R C) (now : Nat) :
      Reachable R C hcl delay colors s →
      Reachable R C hcl delay colors (update colors delay s now).1

/-- A concrete 1×1 state with `highest` past the default decay threshold. -/
def sHot : State 1 1 := ⟨fun _ _ => 2500, 3000, 0⟩

/-- A concrete 1×1 state with `highest` below the default decay threshold. -/
def sCold : State 1 1 := ⟨fun _ _ => 5, 10, 7⟩

/-- A concrete 1×1 state on which halving twice differs from halving once. -/
def sQuad : State 1 1 := ⟨fun _ _ => 4, 4, 0⟩

/-- A concrete 1×1 state whose render was never scheduled. -/
def sDue : State 1 1 := ⟨fun _ _ => 3, 3, 0⟩

/-- A concrete 1×1 state whose next render lies in the future. -/
def sNotDue : State 1 1 := ⟨fun _ _ => 3, 3, 100⟩

/-- `n` fresh key-down events on the single key of a 1×1 grid, starting from
the initial state. -/
def pump : Nat → State 1 1
  | 0 => initialState 1 1
  | n + 1 => (onKeyswitchEvent (pump n) 0 0 false true).2

/-! ### Helper lemmas -/

theorem shiftr_one (x : Nat) : x >>> 1 = x / 2 := by
  rw [Nat.shiftRight_eq_div_pow, pow_one]

theorem shiftl_nine (x : Nat) : x <<< 9 = x * 512 := by
  rw [Nat.shiftLeft_eq]

/-! ### C4: decay maps every cell and `highest` to the floor of half -/

/-- C4: one call to `shiftStats` sends every grid cell to `⌊old/2⌋`, sends
`highest` to `⌊old highest/2⌋`, and leaves the scheduling timestamp (the only
other piece of state) unchanged. -/
theorem shiftStats_halves_all {R C : Nat} (s : State R C) (r : Fin R) (c : Fin C) :
    (shiftStats s).heatmap r c = s.heatmap r c / 2 ∧
    (shiftStats s).highest = s.highest / 2 ∧
    (shiftStats s).next_heatmap_comp_time = s.next_heatmap_comp_time :=
  ⟨shiftr_one _, shiftr_one _, rfl⟩

/-! ### C9: decay is not idempotent -/

/-- C9 counterexample: on the concrete state `sQuad` (every cell 4, `highest`
4), applying `shiftStats` twice gives `highest = 1` while applying it once
gives `highest = 2`, so twice is not the same as once. -/
theorem shiftStats_not_idempotent :
    (shiftStats (shiftStats sQuad)).highest ≠ (shiftStats sQuad).highest := by
  decide

/-- C9 amended: applying `shiftStats` twice maps every grid cell to `⌊old/4⌋`
and `highest` to `⌊old highest/4⌋` (two integer halvings), which differs from a
single application whenever any value is at least 2. -/
theorem shiftStats_twice_quarters {R C : Nat} (s : State R C) (r : Fin R) (c : Fin C) :
    (shiftStats (shiftStats s)).heatmap r c = s.heatmap r c / 4 ∧
    (shiftStats (shiftStats s)).highest = s.highest / 4 := by
  constructor
  · show s.heatmap r c >>> 1 >>> 1 = s.heatmap r c / 4
    rw [shiftr_one, shiftr_one, Nat.div_div_eq_div_mul]
  · show s.highest >>> 1 >>> 1 = s.highest / 4
    rw [shiftr_one, shiftr_one, Nat.div_div_eq_div_mul]

/-! ### C6: tick-driven decay fires iff `highest > paletteLength * 512` -/

/-- C6: one cycle tick runs the decay exactly when `highest > hcl * 512`
(`hcl <<< 9` in the source), in which case every cell and `highest` are halved
and the render-scheduling timestamp is untouched; otherwise the tick leaves the
state unchanged.  `beforeEachCycle` takes no clock argument, so the behavior is
independent of the render interval by construction. -/
theorem beforeEachCycle_decay_iff {R C : Nat} (hcl : Nat) (s : State R C)
    (r : Fin R) (c : Fin C) :
    (hcl * 512 < s.highest →
      (beforeEachCycle hcl s).2.heatmap r c = s.heatmap r c / 2 ∧
      (beforeEachCycle hcl s).2.highest = s.highest / 2 ∧
      (beforeEachCycle hcl s).2.next_heatmap_comp_time = s.next_heatmap_comp_time) ∧
    (s.highest ≤ hcl * 512 → (beforeEachCycle hcl s).2 = s) ∧
    (beforeEachCycle hcl s).1 = EventHandlerResult.OK := by
  unfold beforeEachCycle
  rw [shiftl_nine]
  by_cases h : hcl * 512 < s.highest
  · rw [if_pos h]
    exact ⟨fun _ => ⟨shiftr_one _, shiftr_one _, rfl⟩,
      fun hle => absurd h (not_lt.mpr hle), rfl⟩
  · rw [if_neg h]
    exact ⟨fun hlt => absurd hlt h, fun _ => rfl, rfl⟩

/-- Witness for C6 at concrete states: `sHot` (highest 3000 > 2048) decays to
1500; `sCold` (highest 10 ≤ 2048) is left untouched. -/
theorem beforeEachCycle_decay_iff_witness :
    (4 * 512 < sHot.highest ∧ (beforeEachCycle 4 sHot).2.highest = sHot.highest / 2) ∧
    (sCold.highest ≤ 4 * 512 ∧ (beforeEachCycle 4 sCold).2 = sCold) :=
  ⟨⟨by decide, ((beforeEachCycle_decay_iff 4 sHot 0 0).1 (by decide)).2.1⟩,
   ⟨by decide, (beforeEachCycle_decay_iff 4 sCold 0 0).2.1 (by decide)⟩⟩

/-! ### C7: event filtering and the unconditional `OK` result -/

/-- C7: a key event flagged as synthetic/injected, or one that is not a fresh
transition into the pressed state, leaves the whole state (grid, `highest`,
timestamp) unchanged; and every key event whatsoever returns
`EventHandlerResult.OK`. -/
theorem onKeyswitchEvent_filter_and_ok {R C : Nat} (s : State R C) (row : Fin R)
    (col : Fin C) (injected toggled_on : Bool) :
    (injected = true → (onKeyswitchEvent s row col injected toggled_on).2 = s) ∧
    (toggled_on = false → (onKeyswitchEvent s row col injected toggled_on).2 = s) ∧
    (onKeyswitchEvent s row col injected toggled_on).1 = EventHandlerResult.OK := by
  cases injected <;> cases toggled_on <;> simp [onKeyswitchEvent]

/-- Witness for C7 at a concrete state: injected event, non-press event, and
the `OK` result of a genuine press. -/
theorem onKeyswitchEvent_filter_and_ok_witness :
    (onKeyswitchEvent sCold 0 0 true true).2 = sCold ∧
    (onKeyswitchEvent sCold 0 0 false false).2 = sCold ∧
    (onKeyswitchEvent sCold 0 0 false true).1 = EventHandlerResult.OK :=
  ⟨(onKeyswitchEvent_filter_and_ok sCold 0 0 true true).1 rfl,
   (onKeyswitchEvent_filter_and_ok sCold 0 0 false false).2.1 rfl,
   (onKeyswitchEvent_filter_and_ok sCold 0 0 false true).2.2⟩

/-! ### C3: clamping at the palette boundaries -/

theorem chan_same (a : Nat) (fb : ℚ) : chan a a fb = a := by
  simp [chan, trunc8, sub_self, Int.floor_natCast, Int.toNat_natCast]

theorem blend_same (c : cRGB) (fb : ℚ) : blend c c fb = c := by
  unfold blend
  rw [chan_same, chan_same, chan_same]

theorem computeColor_nonpos (colors : List cRGB) (v : ℚ) (hv : v ≤ 0) :
    computeColor colors v = colors.getD 0 ⟨0, 0, 0⟩ := by
  unfold computeColor computeIdx
  rw [if_pos hv]
  exact blend_same _ _

theorem computeColor_ge_one (colors : List cRGB) (v : ℚ) (hv : 1 ≤ v) :
    computeColor colors v = colors.getD (colors.length - 1) ⟨0, 0, 0⟩ := by
  have h0 : ¬ v ≤ 0 := by linarith
  unfold computeColor computeIdx
  rw [if_neg h0, if_pos hv]
  exact blend_same _ _

theorem getD_last (l : List cRGB) (hne : l ≠ []) (d : cRGB) :
    l.getD (l.length - 1) d = l.getLast hne := by
  have hlt : l.length - 1 < l.length := by
    have := List.length_pos.mpr hne
    omega
  rw [List.getLast_eq_getElem, List.getD_eq_getElem?_getD, List.getElem?_eq_getElem hlt]
  rfl

/-- C3: for any palette with at least two stops and any rational input,
`computeColor` of a nonpositive value is exactly the first stop, `computeColor`
of a value at least 1 is exactly the last stop, and any negative value gives
the same color as 0.  In these branches the source sets `idx1 = idx2` and
`fb = 0`, so each channel computation is `(c - c) * 0 + c`, exact in `float` as
well (every `uint8_t` channel is exactly representable and the coefficient of
`fb` is zero). -/
theorem computeColor_clamp_boundary (colors : List cRGB) (v : ℚ)
    (h2 : 2 ≤ colors.length) :
    (v ≤ 0 → computeColor colors v = colors.headI) ∧
    (1 ≤ v → ∀ hne : colors ≠ [], computeColor colors v = colors.getLast hne) ∧
    (v < 0 → computeColor colors v = computeColor colors 0) := by
  have hne : colors ≠ [] := by
    intro h
    rw [h] at h2
    simp at h2
  refine ⟨fun hv => ?_, fun hv hne2 => ?_, fun hv => ?_⟩
  · rw [computeColor_nonpos colors v hv]
    cases colors with
    | nil => exact absurd rfl hne
    | cons a t => rfl
  · rw [computeColor_ge_one colors v hv]
    exact getD_last colors hne2 _
  · rw [computeColor_nonpos colors v (le_of_lt hv), computeColor_nonpos colors 0 le_rfl]

/-- Witness for C3 on the default palette: `computeColor 0` is the first stop
(black), `computeColor 2` is the last stop (red), and `computeColor (-3)` agrees
with `computeColor 0`. -/
theorem computeColor_clamp_boundary_witness :
    computeColor heat_colors_default_ 0 = heat_colors_default_.headI ∧
    computeColor heat_colors_default_ 2 = heat_colors_default_.getLast (by decide) ∧
    computeColor heat_colors_default_ (-3) = computeColor heat_colors_default_ 0 :=
  ⟨(computeColor_clamp_boundary heat_colors_default_ 0 (by decide)).1 le_rfl,
   (computeColor_clamp_boundary heat_colors_default_ 2 (by decide)).2.1 (by norm_num) _,
   (computeColor_clamp_boundary heat_colors_default_ (-3) (by decide)).2.2 (by norm_num)⟩

/-! ### C2: the worked interpolation example at `v = 0.8` -/

theorem computeIdx_default_point8 :
    computeIdx heat_colors_default_.length (4 / 5 : ℚ) = (2, 3, 2 / 5) := by
  show computeIdx 4 (4 / 5 : ℚ) = (2, 3, 2 / 5)
  unfold computeIdx
  rw [if_neg (by norm_num), if_neg (by norm_num)]
  norm_num [Prod.ext_iff]
  refine ⟨rfl, rfl, ?_⟩
  show (12 / 5 : ℚ) - ((2 : ℕ) : ℚ) = 2 / 5
  norm_num

theorem computeColor_default_point8_red :
    (computeColor heat_colors_default_ (4 / 5 : ℚ)).r = 255 := by
  unfold computeColor
  rw [computeIdx_default_point8]
  show chan 255 255 (2 / 5 : ℚ) = 255
  exact chan_same 255 _

/-- C2 counterexample: with the default palette, the red channel of
`computeColor 0.8` is not 117.  The branch data are as the claim says
(`idx1 = 2`, `idx2 = 3`, `fb = 0.4`), but the red components of stops 2 and 3
are both 255 (the `cRGB` literals are in b,g,r order), so the interpolation
coefficient of `fb` for red is zero and the result is exactly 255 — also in
`float`, where `(255 - 255) * fb + 255` computes to `255.0f` exactly. -/
theorem computeColor_default_point8_red_ne_117 :
    (computeColor heat_colors_default_ (4 / 5 : ℚ)).r ≠ 117 := by
  rw [computeColor_default_point8_red]
  decide

/-- C2 amended: with the default 4-stop palette, `computeColor 0.8` has
`idx1 = 2`, `idx2 = 3`, `fb = 0.4` as the worked formula says, but its red
channel equals 255, since the red components of stops 2 and 3 are 255 and 255
(not 25 and 255): the channel is `(255 - 255) × 0.4 + 255 = 255`. -/
theorem computeColor_default_point8_red_eq_255 :
    (computeColor heat_colors_default_ (4 / 5 : ℚ)).r = 255 ∧
    computeIdx heat_colors_default_.length (4 / 5 : ℚ) = (2, 3, 2 / 5) :=
  ⟨computeColor_default_point8_red, computeIdx_default_point8⟩

/-! ### Reachability invariants (C1, C5, C10) -/

/-- The inductive invariant: every cell is at most `highest`, and `highest`
stays at most `INT16_MAX - 1` once an operation completes (the increment path
decays the instant it produces 32767). -/
def Inv {R C : Nat} (s : State R C) : Prop :=
  (∀ r c, s.heatmap r c ≤ s.highest) ∧ s.highest ≤ 32766

theorem bump_self {R C : Nat} (s : State R C) (row : Fin R) (col : Fin C) :
    bump s row col row col = (s.heatmap row col + 1) % 65536 := by
  simp [bump]

theorem bump_other_le {R C : Nat} (s : State R C) (row : Fin R) (col : Fin C)
    (hub : s.heatmap row col + 1 < 65536)
    (hle : ∀ r c, s.heatmap r c ≤ s.highest) (x : Fin R) (y : Fin C) :
    bump s row col x y ≤ s.highest + 1 := by
  unfold bump
  split
  · next hxy =>
    obtain ⟨hx, hy⟩ := hxy
    subst hx
    subst hy
    rw [Nat.mod_eq_of_lt hub]
    exact Nat.succ_le_succ (hle x y)
  · exact le_trans (hle x y) (Nat.le_succ _)

theorem inv_keyPress {R C : Nat} (s : State R C) (row : Fin R) (col : Fin C)
    (h : Inv s) : Inv (keyPress s row col) := by
  obtain ⟨hle, hub⟩ := h
  have hcell : s.heatmap row col ≤ s.highest := hle row col
  have hlt : s.heatmap row col + 1 < 65536 := by omega
  have hb : bump s row col row col = s.heatmap row col + 1 := by
    rw [bump_self, Nat.mod_eq_of_lt hlt]
  have hball : ∀ x y, bump s row col x y ≤ s.highest + 1 :=
    bump_other_le s row col hlt hle
  unfold keyPress
  by_cases h1 : s.highest < bump s row col row col
  · rw [if_pos h1]
    by_cases h2 : bump s row col row col = 32767
    · rw [if_pos h2]
      constructor
      · intro r c
        show bump s row col r c >>> 1 ≤ bump s row col row col >>> 1
        rw [shiftr_one, shiftr_one]
        exact Nat.div_le_div_right (by have := hball r c; omega)
      · show bump s row col row col >>> 1 ≤ 32766
        rw [h2, shiftr_one]
        omega
    · rw [if_neg h2]
      constructor
      · intro r c
        show bump s row col r c ≤ bump s row col row col
        have := hball r c
        omega
      · show bump s row col row col ≤ 32766
        rw [hb] at h2 ⊢
        omega
  · rw [if_neg h1]
    exact ⟨fun r c => by
      show bump s row col r c ≤ s.highest
      have := hball r c
      have hfull : bump s row col row col ≤ s.highest := not_lt.mp h1
      by_cases hxy : r = row ∧ c = col
      · obtain ⟨hx, hy⟩ := hxy
        subst hx
        subst hy
        exact hfull
      · show (if r = row ∧ c = col then (s.heatmap r c + 1) % 65536 else s.heatmap r c) ≤ s.highest
        rw [if_neg hxy]
        exact hle r c, hub⟩

theorem pos_keyPress {R C : Nat} (s : State R C) (row : Fin R) (col : Fin C)
    (h : 1 ≤ s.highest) : 1 ≤ (keyPress s row col).highest := by
  unfold keyPress
  by_cases h1 : s.highest < bump s row col row col
  · rw [if_pos h1]
    by_cases h2 : bump s row col row col = 32767
    · rw [if_pos h2]
      show 1 ≤ bump s row col row col >>> 1
      rw [h2, shiftr_one]
      omega
    · rw [if_neg h2]
      show 1 ≤ bump s row col row col
      omega
  · rw [if_neg h1]
    exact h

theorem onKey_snd_cases {R C : Nat} (s : State R C) (row : Fin R) (col : Fin C)
    (injected toggled_on : Bool) :
    (onKeyswitchEvent s row col injected toggled_on).2 = s ∨
    (onKeyswitchEvent s row col injected toggled_on).2 = keyPress s row col := by
  cases injected <;> cases toggled_on <;> simp [onKeyswitchEvent]

theorem inv_cycle {R C : Nat} (hcl : Nat) (s : State R C) (h : Inv s) :
    Inv (beforeEachCycle hcl s).2 := by
  obtain ⟨hle, hub⟩ := h
  unfold beforeEachCycle
  split
  · constructor
    · intro r c
      show s.heatmap r c >>> 1 ≤ s.highest >>> 1
      rw [shiftr_one, shiftr_one]
      exact Nat.div_le_div_right (hle r c)
    · show s.highest >>> 1 ≤ 32766
      rw [shiftr_one]
      omega
  · exact ⟨hle, hub⟩

theorem pos_cycle {R C : Nat} (hcl : Nat) (hhcl : 1 ≤ hcl) (s : State R C)
    (h : 1 ≤ s.highest) : 1 ≤ (beforeEachCycle hcl s).2.highest := by
  unfold beforeEachCycle
  split
  · next hgt =>
    rw [shiftl_nine] at hgt
    show 1 ≤ s.highest >>> 1
    rw [shiftr_one]
    have h512 : 512 ≤ hcl * 512 := by
      calc 512 = 1 * 512 := by omega
        _ ≤ hcl * 512 := Nat.mul_le_mul_right 512 hhcl
    omega
  · exact h

theorem update_fst_fields {R C : Nat} (colors : List cRGB) (delay : Nat)
    (s : State R C) (now : Nat) :
    (update colors delay s now).1.heatmap = s.heatmap ∧
    (update colors delay s now).1.highest = s.highest := by
  unfold update
  split
  · exact ⟨rfl, rfl⟩
  · exact ⟨rfl, rfl⟩

theorem reach_inv {R C : Nat} (hcl delay : Nat) (colors : List cRGB)
    (s : State R C) (h : Reachable R C hcl delay colors s) : Inv s := by
  induction h with
  | init => exact ⟨fun _ _ => by norm_num [initialState], by norm_num [initialState]⟩
  | key s row col injected toggled_on _ ih =>
    rcases onKey_snd_cases s row col injected toggled_on with he | he <;> rw [he]
    · exact ih
    · exact inv_keyPress s row col ih
  | cycle s _ ih => exact inv_cycle hcl s ih
  | render s now _ ih =>
    obtain ⟨h1, h2⟩ := update_fst_fields colors delay s now
    unfold Inv
    rw [h1, h2]
    exact ih

theorem reach_pos {R C : Nat} (hcl delay : Nat) (colors : List cRGB)
    (s : State R C) (hhcl : 1 ≤ hcl) (h : Reachable R C hcl delay colors s) :
    1 ≤ s.highest := by
  induction h with
  | init => norm_num [initialState]
  | key s row col injected toggled_on _ ih =>
    rcases onKey_snd_cases s row col injected toggled_on with he | he <;> rw [he]
    · exact ih
    · exact pos_keyPress s row col ih
  | cycle s _ ih => exact pos_cycle hcl hhcl s ih
  | render s now _ ih =>
    rw [(update_fst_fields colors delay s now).2]
    exact ih

/-- C1: in every reachable state (from the all-zero grid with `highest = 1`,
under any sequence of key events, cycle ticks, and renders, for any configured
palette with at least one stop), every grid cell is at most `highest` and
`highest` is at least 1 — so the render pass's `cell / highest` never divides
by zero. -/
theorem reachable_cell_le_highest_and_pos {R C : Nat} (hcl delay : Nat)
    (colors : List cRGB) (s : State R C) (hhcl : 1 ≤ hcl)
    (h : Reachable R C hcl delay colors s) :
    (∀ r c, s.heatmap r c ≤ s.highest) ∧ 1 ≤ s.highest :=
  ⟨(reach_inv hcl delay colors s h).1, reach_pos hcl delay colors s hhcl h⟩

/-- Witness for C1 at the initial state with the default configuration. -/
theorem reachable_cell_le_highest_and_pos_witness :
    (initialState 1 1).heatmap 0 0 ≤ (initialState 1 1).highest ∧
    1 ≤ (initialState 1 1).highest := by
  have h := reachable_cell_le_highest_and_pos 4 1000 heat_colors_default_
    (initialState 1 1) (by omega) Reachable.init
  exact ⟨h.1 0 0, h.2⟩

/-- C10: in every reachable state, `highest` — and with it every grid cell —
never exceeds `INT16_MAX = 32767` (in fact stays at most 32766 between
operations, since the increment path halves everything the moment the updated
`highest` equals 32767), far below the `uint16_t` maximum 65535, with no
assumption that the tick-driven decay ever runs. -/
theorem reachable_highest_le_int16max {R C : Nat} (hcl delay : Nat)
    (colors : List cRGB) (s : State R C)
    (h : Reachable R C hcl delay colors s) :
    s.highest ≤ 32767 ∧ ∀ r c, s.heatmap r c ≤ 32767 := by
  obtain ⟨hle, hub⟩ := reach_inv hcl delay colors s h
  exact ⟨by omega, fun r c => by have := hle r c; omega⟩

/-- Witness for C10 at the initial state with the default configuration. -/
theorem reachable_highest_le_int16max_witness :
    (initialState 1 1).highest ≤ 32767 ∧ (initialState 1 1).heatmap 0 0 ≤ 32767 := by
  have h := reachable_highest_le_int16max 4 1000 heat_colors_default_
    (initialState 1 1) Reachable.init
  exact ⟨h.1, h.2 0 0⟩

/-! ### C5: the near-overflow safety net inside the increment path -/

theorem onKey_press_eq {R C : Nat} (s : State R C) (row : Fin R) (col : Fin C) :
    (onKeyswitchEvent s row col false true).2 = keyPress s row col := by
  simp [onKeyswitchEvent]

theorem pump_reachable (n : Nat) :
    Reachable 1 1 4 1000 heat_colors_default_ (pump n) := by
  induction n with
  | zero => exact Reachable.init
  | succ n ih => exact Reachable.key (pump n) 0 0 false true ih

theorem pump_spec (n : Nat) (hn : n ≤ 32766) :
    (pump n).heatmap 0 0 = n ∧ (pump n).highest = max 1 n := by
  induction n with
  | zero => exact ⟨rfl, rfl⟩
  | succ n ih =>
    obtain ⟨hcell, hhigh⟩ := ih (by omega)
    have hstep : pump (n + 1) = keyPress (pump n) 0 0 := by
      show (onKeyswitchEvent (pump n) 0 0 false true).2 = keyPress (pump n) 0 0
      exact onKey_press_eq (pump n) 0 0
    have hb : bump (pump n) 0 0 0 0 = n + 1 := by
      rw [bump_self, hcell, Nat.mod_eq_of_lt (by omega)]
    rw [hstep]
    unfold keyPress
    rw [hb, hhigh]
    rcases Nat.eq_zero_or_pos n with hn0 | hn0
    · subst hn0
      rw [if_neg (by omega)]
      exact ⟨hb, by decide⟩
    · rw [if_pos (by omega), if_neg (by omega)]
      refine ⟨hb, ?_⟩
      show n + 1 = 1 ⊔ (n + 1)
      omega

/-- C5: from any reachable state, a fresh key-down increment never wraps the
16-bit counter (`cell + 1 < 65536`, so `(cell + 1) % 65536 = cell + 1`), and as
soon as the updated `highest` reaches the near-overflow threshold
`INT16_MAX = 32767` — that is, when the pressed cell held 32766 — the very same
event performs the automatic decay: the resulting `highest` and pressed cell
are `32767 >> 1 = 16383`.  This holds with no cycle tick in between. -/
theorem keyDown_no_overflow_and_safety_decay {R C : Nat} (hcl delay : Nat)
    (colors : List cRGB) (s : State R C) (row : Fin R) (col : Fin C)
    (h : Reachable R C hcl delay colors s) :
    s.heatmap row col + 1 < 65536 ∧
    (s.heatmap row col = 32766 →
      (onKeyswitchEvent s row col false true).2.highest = 16383 ∧
      (onKeyswitchEvent s row col false true).2.heatmap row col = 16383) := by
  obtain ⟨hle, hub⟩ := reach_inv hcl delay colors s h
  have hcell := hle row col
  refine ⟨by omega, fun hc => ?_⟩
  have hhi : s.highest = 32766 := by omega
  rw [onKey_press_eq s row col]
  unfold keyPress
  have hb : bump s row col row col = 32767 := by
    rw [bump_self, hc]
  rw [hb, hhi, if_pos (by omega), if_pos rfl]
  constructor
  · show (32767 : Nat) >>> 1 = 16383
    decide
  · show bump s row col row col >>> 1 = 16383
    rw [hb]
    decide

/-- Witness for C5: after exactly 32766 fresh presses of the single key of a
1×1 keyboard, the cell holds 32766; the next press does not wrap and decays
`highest` to 16383 within the same event. -/
theorem keyDown_no_overflow_and_safety_decay_witness :
    (pump 32766).heatmap 0 0 + 1 < 65536 ∧
    (onKeyswitchEvent (pump 32766) 0 0 false true).2.highest = 16383 := by
  have h := keyDown_no_overflow_and_safety_decay 4 1000 heat_colors_default_
    (pump 32766) 0 0 (pump_reachable 32766)
  exact ⟨h.1, (h.2 (pump_spec 32766 le_rfl).1).1⟩

/-! ### C8: render scheduling and the row-major write list -/

theorem length_flatMap_const {α β : Type} (l : List α) (f : α → List β) (n : Nat)
    (hf : ∀ a ∈ l, (f a).length = n) : (l.flatMap f).length = l.length * n := by
  induction l with
  | nil => simp
  | cons a t ih =>
    simp only [List.flatMap_cons, List.length_append, List.length_cons]
    rw [hf a (List.mem_cons_self a t), ih fun x hx => hf x (List.mem_cons_of_mem a hx)]
    ring

theorem getElem?_flatMap_const {α β : Type} (l : List α) (f : α → List β) (n : Nat)
    (hf : ∀ a ∈ l, (f a).length = n) (i j : Nat) (hi : i < l.length) (hj : j < n) :
    (l.flatMap f)[i * n + j]? = (f (l.get ⟨i, hi⟩))[j]? := by
  induction l generalizing i with
  | nil => exact absurd hi (by simp)
  | cons a t ih =>
    cases i with
    | zero =>
      simp only [List.flatMap_cons, Nat.zero_mul, Nat.zero_add]
      rw [List.getElem?_append_left]
      · rfl
      · rw [hf a (List.mem_cons_self a t)]
        exact hj
    | succ i =>
      simp only [List.flatMap_cons]
      have hsm : (i + 1) * n + j = n + (i * n + j) := by ring
      rw [hsm,
        List.getElem?_append_right (by rw [hf a (List.mem_cons_self a t)]; omega),
        hf a (List.mem_cons_self a t), Nat.add_sub_cancel_left]
      exact ih (fun x hx => hf x (List.mem_cons_of_mem a hx)) i
        (by simp only [List.length_cons] at hi; omega)

theorem finRange_getElem? {n : Nat} (i : Fin n) :
    (List.finRange n)[(i : Nat)]? = some i := by
  have hlt : (i : Nat) < (List.finRange n).length := by
    rw [List.length_finRange]
    exact i.isLt
  rw [List.getElem?_eq_getElem hlt]
  exact congrArg some (List.get_finRange hlt)

/-- C8: a call of the render tick at time `now` performs a render pass exactly
when no render was ever scheduled (`next_heatmap_comp_time = 0`) or
`now ≥ next_heatmap_comp_time`, and otherwise changes nothing and writes
nothing.  A render pass leaves the grid and `highest` unchanged, schedules
`next_heatmap_comp_time = (now + delay) mod 2^32`, and emits exactly `R * C`
writes, the entry at position `r * C + c` of the row-major list being
`(r, c, computeColor (cell r c / highest))`. -/
theorem update_render_iff_due {R C : Nat} (colors : List cRGB) (delay : Nat)
    (s : State R C) (now : Nat) :
    (s.next_heatmap_comp_time = 0 ∨ s.next_heatmap_comp_time ≤ now →
      (update colors delay s now).1.heatmap = s.heatmap ∧
      (update colors delay s now).1.highest = s.highest ∧
      (update colors delay s now).1.next_heatmap_comp_time = (now + delay) % 4294967296 ∧
      (update colors delay s now).2.length = R * C ∧
      ∀ (r : Fin R) (c : Fin C),
        (update colors delay s now).2[(r : Nat) * C + (c : Nat)]? =
          some (r, c, computeColor colors ((s.heatmap r c : ℚ) / (s.highest : ℚ)))) ∧
    (s.next_heatmap_comp_time ≠ 0 ∧ now < s.next_heatmap_comp_time →
      update colors delay s now = (s, [])) := by
  constructor
  · intro hdue
    have hcond : ¬ (s.next_heatmap_comp_time ≠ 0 ∧ now < s.next_heatmap_comp_time) := by
      rcases hdue with h | h
      · exact fun hc => hc.1 h
      · exact fun hc => absurd hc.2 (not_lt.mpr h)
    unfold update
    rw [if_neg hcond]
    refine ⟨rfl, rfl, rfl, ?_, ?_⟩
    · rw [length_flatMap_const _ _ C (fun a _ => by simp), List.length_finRange]
    · intro r c
      have hi : (r : Nat) < (List.finRange R).length := by
        rw [List.length_finRange]
        exact r.isLt
      rw [getElem?_flatMap_const _ _ C (fun a _ => by simp) (r : Nat) (c : Nat) hi c.isLt,
        List.getElem?_map, finRange_getElem? c]
      have hr : (List.finRange R).get ⟨(r : Nat), hi⟩ = r :=
        List.get_finRange hi
      rw [hr]
      rfl
  · intro hcond
    unfold update
    rw [if_pos hcond]

/-- Witness for C8 at concrete states: `sDue` was never scheduled, so a tick at
time 5 renders, schedules 1005, and writes one color for the 1×1 grid;
`sNotDue` has a future schedule, so a tick at time 7 is a no-op. -/
theorem update_render_iff_due_witness :
    ((sDue.next_heatmap_comp_time = 0 ∨ sDue.next_heatmap_comp_time ≤ 5) ∧
      (update heat_colors_default_ 1000 sDue 5).1.next_heatmap_comp_time =
        (5 + 1000) % 4294967296 ∧
      (update heat_colors_default_ 1000 sDue 5).2.length = 1 * 1) ∧
    ((sNotDue.next_heatmap_comp_time ≠ 0 ∧ 7 < sNotDue.next_heatmap_comp_time) ∧
      update heat_colors_default_ 1000 sNotDue 7 = (sNotDue, [])) := by
  have h1 := update_render_iff_due heat_colors_default_ 1000 sDue 5
  have h2 := update_render_iff_due heat_colors_default_ 1000 sNotDue 7
  refine ⟨⟨Or.inl rfl, ?_, ?_⟩, ⟨⟨by decide, by decide⟩, h2.2 ⟨by decide, by decide⟩⟩⟩
  · exact (h1.1 (Or.inl rfl)).2.2.1
  · exact (h1.1 (Or.inl rfl)).2.2.2.1

end Heatmap
